import Mathlib

/-!
Shallow embedding of the glean-core metric database
(src/glean-core/src/database/mod.rs, the SQLite-backed variant) together
with the collaborating types it consumes (Lifetime, Metric,
CommonMetricDataInternal, Glean), and proofs of the specification claims
about it.

The persistent table is modelled as a list of rows in storage order; the
UNIQUE(id, ping) constraint of the schema is the WF invariant below.
SQLite statement failures (prepare/execute errors) are modelled by an
oracle DbEnv: a failing statement leaves the table unchanged and the
operation returns an error, exactly as a rolled-back statement does.
-/

namespace Glean

/-- Metric lifetime, as consumed by the database code. The database only
uses its string name (stored in the TEXT lifetime column). -/
inductive Lifetime
  | ping
  | application
  | user
deriving DecidableEq, Repr

/-- String name of a lifetime, used as SQL parameter for the lifetime column. -/
def Lifetime.as_str : Lifetime → String
  | .ping => "ping"
  | .application => "application"
  | .user => "user"

/-- The tagged metric value union. The database treats it opaquely
(serialize on write, deserialize on read); only the variants exercised by
the claims are included. -/
inductive Metric
  | boolean (b : Bool)
  | counter (n : Int)
  | str (s : String)
deriving DecidableEq, Repr

/-- A value BLOB as stored in the value column: either the serialization
of a metric (bincode serialization of a metric always succeeds and
round-trips), or bytes that do not deserialize to any metric. -/
inductive Blob
  | enc (m : Metric)
  | corrupt (n : Nat)
deriving DecidableEq, Repr

/-- Deserialization of a value BLOB; undecodable bytes yield none. -/
def decodeBlob : Blob → Option Metric
  | .enc m => some m
  | .corrupt _ => none

/-- One row of the telemetry table: (id, ping, lifetime, value).
The updated_at column holds wall-clock time and no claim depends on it,
so it is omitted. -/
structure Row where
  id : String
  ping : String
  lifetime : Lifetime
  value : Blob
deriving DecidableEq, Repr

/-- The telemetry table contents, in storage order. -/
abbrev Store := List Row

/-- The UNIQUE(id, ping) constraint of the schema: no two rows share the
(id, ping) key. -/
def WF (st : Store) : Prop :=
  st.Pairwise (fun a b => ¬(a.id = b.id ∧ a.ping = b.ping))

/-- Two rows conflict on the UNIQUE(id, ping) key. -/
def sameKey (a b : Row) : Bool :=
  a.id == b.id && a.ping == b.ping

/-- The effect of INSERT ... ON CONFLICT(id, ping) DO UPDATE: replace the
(by UNIQUE necessarily single) conflicting row in place, or append the new
row. -/
def upsertRow (st : Store) (r : Row) : Store :=
  match st with
  | [] => [r]
  | q :: rest => if sameKey q r then r :: rest else q :: upsertRow rest r

/-- Oracle for SQLite statement failures: which write / delete statements
fail (a failed statement has no effect on the table). -/
structure DbEnv where
  writeFails : Lifetime → String → String → Bool
  removeFails : Lifetime → String → String → Bool
  clearPingFails : String → Bool

/-- The environment in which no statement fails. -/
def DbEnv.ok : DbEnv :=
  ⟨fun _ _ _ => false, fun _ _ _ => false, fun _ => false⟩

/-- ASCII lowercasing of a character, as used by the SQLite LIKE operator
(LIKE is case-insensitive for ASCII by default). -/
def asciiLower (c : Char) : Char :=
  if 65 ≤ c.toNat ∧ c.toNat ≤ 90 then Char.ofNat (c.toNat + 32) else c

/-- Case-insensitive (ASCII) character comparison of the LIKE operator. -/
def charLikeEq (p c : Char) : Bool :=
  asciiLower p == asciiLower c

/-- SQLite LIKE pattern matching on character lists: percent matches any
sequence, underscore matches any single character, any other pattern
character matches ASCII-case-insensitively. -/
def likeMatch : List Char → List Char → Bool
  | [], s => s.isEmpty
  | '%' :: ps, s =>
    likeMatch ps s ||
      (match s with
       | [] => false
       | _ :: s' => likeMatch ('%' :: ps) s')
  | '_' :: _, [] => false
  | '_' :: ps, _ :: s => likeMatch ps s
  | _ :: _, [] => false
  | p :: ps, c :: s => charLikeEq p c && likeMatch ps s
termination_by ps s => (ps.length, s.length)

/-- Row filter of the iteration query: lifetime = ?1 AND ping = ?2,
optionally AND id LIKE ?3 || percent. -/
def rowSelected (lifetime : Lifetime) (storage_name : String)
    (metric_key : Option String) (r : Row) : Bool :=
  r.lifetime.as_str == lifetime.as_str && r.ping == storage_name &&
    (match metric_key with
     | none => true
     | some k => likeMatch (k.data ++ ['%']) r.id.data)

/-- iter_store_from: the sequence of (metric id, metric) pairs handed to
the transaction function, in storage order. Rows whose value BLOB does not
deserialize are silently skipped. -/
def iter_store_from (st : Store) (lifetime : Lifetime) (storage_name : String)
    (metric_key : Option String) : List (String × Metric) :=
  st.filterMap (fun r =>
    if rowSelected lifetime storage_name metric_key r then
      (decodeBlob r.value).map (fun m => (r.id, m))
    else none)

/-- record_per_lifetime: a single upsert of (key, storage_name, lifetime,
serialized metric) into the telemetry table. -/
def record_per_lifetime (env : DbEnv) (lifetime : Lifetime)
    (storage_name key : String) (metric : Metric) (st : Store) :
    Except String Unit × Store :=
  if env.writeFails lifetime storage_name key then (.error "sql", st)
  else (.ok (), upsertRow st ⟨key, storage_name, lifetime, .enc metric⟩)

/-- The row condition of the SELECT in record_per_lifetime_with:
lifetime = ?1 AND ping = ?2 AND id = ?3. -/
def readPred (lifetime : Lifetime) (storage_name key : String) (r : Row) : Bool :=
  r.lifetime.as_str == lifetime.as_str && r.ping == storage_name && r.id == key

/-- The SELECT of record_per_lifetime_with: first row (storage order,
LIMIT 1) matching lifetime, ping and id, deserialized; absent row or
undecodable BLOB give none. -/
def read_current (st : Store) (lifetime : Lifetime)
    (storage_name key : String) : Option Metric :=
  match st.find? (fun r => readPred lifetime storage_name key r) with
  | some r => decodeBlob r.value
  | none => none

/-- record_per_lifetime_with: one transaction reading the current value,
applying the transformation, and upserting the result. A failing
transaction is rolled back and leaves the table unchanged. -/
def record_per_lifetime_with (env : DbEnv) (lifetime : Lifetime)
    (storage_name key : String) (transform : Option Metric → Metric)
    (st : Store) : Except String Unit × Store :=
  if env.writeFails lifetime storage_name key then (.error "sql", st)
  else
    let new_value := transform (read_current st lifetime storage_name key)
    (.ok (), upsertRow st ⟨key, storage_name, lifetime, .enc new_value⟩)

/-- The transform of the atomic-transform claim: an absent old value
becomes a counter of one, an existing counter of k becomes a counter of
k plus one. -/
def counterTransform : Option Metric → Metric
  | some (.counter k) => .counter (k + 1)
  | _ => .counter 1

/-- The caller-provided upload flag. -/
structure GleanState where
  upload_enabled : Bool

/-- is_upload_enabled, consulted by record and record_with before any write. -/
def GleanState.is_upload_enabled (g : GleanState) : Bool :=
  g.upload_enabled

/-- The common metric data the database consumes: lifetime, the list of
ping names to store into, and the pieces of the metric identifier
(category.name, optionally suffixed with a slash and a dynamic label). -/
structure CommonMetricDataInternal where
  lifetime : Lifetime
  send_in_pings : List String
  category : String
  name : String
  dynamic_label : Option String

/-- base_identifier: category.name, or bare name for an empty category. -/
def CommonMetricDataInternal.base_identifier
    (d : CommonMetricDataInternal) : String :=
  if d.category = "" then d.name else d.category ++ "." ++ d.name

/-- identifier: base identifier with the dynamic label suffix when present. -/
def CommonMetricDataInternal.identifier (d : CommonMetricDataInternal)
    (_glean : GleanState) : String :=
  match d.dynamic_label with
  | some l => d.base_identifier ++ "/" ++ l
  | none => d.base_identifier

/-- storage_names: the ping names the metric is recorded into. -/
def CommonMetricDataInternal.storage_names
    (d : CommonMetricDataInternal) : List String :=
  d.send_in_pings

/-- record: returns immediately when upload is disabled; otherwise upserts
the value once per ping name, logging (and otherwise ignoring) per-ping
failures. -/
def record (env : DbEnv) (glean : GleanState)
    (data : CommonMetricDataInternal) (value : Metric) (st : Store) : Store :=
  if !glean.is_upload_enabled then st
  else
    data.storage_names.foldl
      (fun s ping_name =>
        (record_per_lifetime env data.lifetime ping_name
          (data.identifier glean) value s).2)
      st

/-- record_with: returns immediately when upload is disabled; otherwise
performs one transactional read-transform-write per ping name, logging
(and otherwise ignoring) per-ping failures. -/
def record_with (env : DbEnv) (glean : GleanState)
    (data : CommonMetricDataInternal) (transform : Option Metric → Metric)
    (st : Store) : Store :=
  if !glean.is_upload_enabled then st
  else
    data.storage_names.foldl
      (fun s ping_name =>
        (record_per_lifetime_with env data.lifetime ping_name
          (data.identifier glean) transform s).2)
      st

/-- clear_ping_lifetime_storage: DELETE FROM telemetry WHERE lifetime =
ping-lifetime AND ping = storage_name. Deleting zero rows succeeds. -/
def clear_ping_lifetime_storage (env : DbEnv) (storage_name : String)
    (st : Store) : Except String Unit × Store :=
  if env.clearPingFails storage_name then (.error "sql", st)
  else
    (.ok (), st.filter (fun r =>
      !(r.lifetime.as_str == Lifetime.ping.as_str && r.ping == storage_name)))

/-- remove_single_metric: DELETE FROM telemetry WHERE lifetime = ?1 AND
ping = ?2 AND id = ?3. Deleting zero rows succeeds. -/
def remove_single_metric (env : DbEnv) (lifetime : Lifetime)
    (storage_name metric_id : String) (st : Store) :
    Except String Unit × Store :=
  if env.removeFails lifetime storage_name metric_id then (.error "sql", st)
  else
    (.ok (), st.filter (fun r =>
      !(r.lifetime.as_str == lifetime.as_str && r.ping == storage_name &&
        r.id == metric_id)))

/-- persist_ping_lifetime_data of the SQLite variant: does nothing and
returns Ok. -/
def persist_ping_lifetime_data (st : Store) : Except String Unit × Store :=
  (.ok (), st)

/-- The data directory as seen by the constructor: possibly-present
legacy-format (rkv) data, and the contents of the current-format store. -/
structure Dir where
  legacy : Option (List (String × Blob))
  current : Store

/-- Database.new of the SQLite variant: creates the directory and schema,
ignores the delayed-I/O flag, performs no legacy migration, and leaves
every file of the directory in place; the opened store holds exactly the
pre-existing current-format contents. -/
def Database.new (d : Dir) (_delay_ping_lifetime_io : Bool) : Dir × Store :=
  (d, d.current)

/-- Rows of the table holding the given (id, ping) key, in storage order. -/
def rowsFor (st : Store) (id ping : String) : List Row :=
  st.filter (fun r => r.id == id && r.ping == ping)

/-! ### Basic lemmas about keys and the upsert -/

theorem Lifetime.as_str_inj {a b : Lifetime} : a.as_str = b.as_str ↔ a = b := by
  cases a <;> cases b <;> decide

theorem sameKey_iff {a b : Row} : sameKey a b = true ↔ a.id = b.id ∧ a.ping = b.ping := by
  simp [sameKey]

theorem mem_upsertRow {st : Store} {r x : Row} (h : x ∈ upsertRow st r) :
    x ∈ st ∨ x = r := by
  induction st with
  | nil => exact Or.inr (by simpa [upsertRow] using h)
  | cons q rest ih =>
    by_cases hq : sameKey q r = true
    · simp only [upsertRow, hq, if_true, List.mem_cons] at h
      rcases h with h | h
      · exact Or.inr h
      · exact Or.inl (List.mem_cons_of_mem _ h)
    · simp only [upsertRow, hq, if_false, Bool.false_eq_true, List.mem_cons] at h
      rcases h with h | h
      · exact Or.inl (by simp [h])
      · rcases ih h with h' | h'
        · exact Or.inl (List.mem_cons_of_mem _ h')
        · exact Or.inr h'

theorem WF_upsertRow {st : Store} {r : Row} (h : WF st) : WF (upsertRow st r) := by
  induction st with
  | nil => simp [upsertRow, WF]
  | cons q rest ih =>
    rcases List.pairwise_cons.mp h with ⟨hq, hrest⟩
    by_cases hk : sameKey q r = true
    · have hkey := sameKey_iff.mp hk
      simp only [upsertRow, hk, if_true]
      refine List.pairwise_cons.mpr ⟨?_, hrest⟩
      intro b hb hcon
      exact hq b hb ⟨hkey.1.trans hcon.1, hkey.2.trans hcon.2⟩
    · simp only [upsertRow, hk, if_false, Bool.false_eq_true]
      refine List.pairwise_cons.mpr ⟨?_, ih hrest⟩
      intro b hb
      rcases mem_upsertRow hb with h' | h'
      · exact hq b h'
      · subst h'
        intro hc
        exact hk (sameKey_iff.mpr hc)

theorem upsertRow_append {st : Store} {r : Row}
    (h : ∀ q ∈ st, sameKey q r = false) : upsertRow st r = st ++ [r] := by
  induction st with
  | nil => rfl
  | cons q rest ih =>
    have hq : sameKey q r = false := h q (List.mem_cons_self _ _)
    simp only [upsertRow, hq, Bool.false_eq_true, if_false, List.cons_append,
      List.cons.injEq, true_and]
    exact ih (fun x hx => h x (List.mem_cons_of_mem _ hx))

theorem rowsFor_upsertRow_self {st : Store} (h : WF st) (r : Row) :
    rowsFor (upsertRow st r) r.id r.ping = [r] := by
  induction st with
  | nil => simp [upsertRow, rowsFor]
  | cons q rest ih =>
    rcases List.pairwise_cons.mp h with ⟨hq, hrest⟩
    by_cases hk : sameKey q r = true
    · have hkey := sameKey_iff.mp hk
      simp only [upsertRow, hk, if_true]
      have hnil : rowsFor rest r.id r.ping = [] := by
        refine List.filter_eq_nil_iff.mpr ?_
        intro b hb hcon
        simp only [Bool.and_eq_true, beq_iff_eq] at hcon
        exact hq b hb ⟨hkey.1.trans hcon.1.symm, hkey.2.trans hcon.2.symm⟩
      simpa [rowsFor, List.filter_cons] using hnil
    · have hQ : (q.id == r.id && q.ping == r.ping) = false := by
        simpa [sameKey] using hk
      simp only [upsertRow, hk, Bool.false_eq_true, if_false]
      simpa [rowsFor, List.filter_cons, hQ] using ih hrest

theorem rowsFor_upsertRow_other {st : Store} {r : Row} {i p : String}
    (hne : ¬(i = r.id ∧ p = r.ping)) :
    rowsFor (upsertRow st r) i p = rowsFor st i p := by
  have hr : (r.id == i && r.ping == p) = false := by
    refine Bool.eq_false_iff.mpr fun hcon => ?_
    simp only [Bool.and_eq_true, beq_iff_eq] at hcon
    exact hne ⟨hcon.1.symm, hcon.2.symm⟩
  induction st with
  | nil => simp [upsertRow, rowsFor, List.filter_cons, hr]
  | cons q rest ih =>
    by_cases hk : sameKey q r = true
    · have hkey := sameKey_iff.mp hk
      have hQ : (q.id == i && q.ping == p) = false := by
        refine Bool.eq_false_iff.mpr fun hcon => ?_
        simp only [Bool.and_eq_true, beq_iff_eq] at hcon
        exact hne ⟨hcon.1.symm.trans hkey.1, hcon.2.symm.trans hkey.2⟩
      simp [upsertRow, hk, rowsFor, List.filter_cons, hr, hQ]
    · have hk' : sameKey q r = false := by simpa using hk
      simp only [upsertRow, hk', Bool.false_eq_true, if_false]
      simp only [rowsFor] at ih ⊢
      simp only [List.filter_cons]
      rw [ih]

/-! ### Relating finds and iterations to the rows of one key -/

theorem find?_filter_of_imp {α} {P Q : α → Bool}
    (hPQ : ∀ a, P a = true → Q a = true) :
    ∀ l : List α, l.find? P = (l.filter Q).find? P := by
  intro l
  induction l with
  | nil => rfl
  | cons a l ih =>
    by_cases hQ : Q a = true
    · rw [List.filter_cons_of_pos hQ]
      by_cases hP : P a = true
      · rw [List.find?_cons_of_pos _ hP, List.find?_cons_of_pos _ hP]
      · rw [List.find?_cons_of_neg _ (by simpa using hP),
          List.find?_cons_of_neg _ (by simpa using hP), ih]
    · have hP : ¬ P a = true := fun h => hQ (hPQ a h)
      rw [List.filter_cons_of_neg (by simpa using hQ),
        List.find?_cons_of_neg _ (by simpa using hP), ih]

theorem filterMap_filter_of_imp {α β} {H : α → Option β} {Q : α → Bool}
    (hHQ : ∀ a, (H a).isSome → Q a = true) :
    ∀ l : List α, l.filterMap H = (l.filter Q).filterMap H := by
  intro l
  induction l with
  | nil => rfl
  | cons a l ih =>
    by_cases hQ : Q a = true
    · rw [List.filter_cons_of_pos hQ, List.filterMap_cons, List.filterMap_cons]
      cases h : H a <;> simp [h, ih]
    · have hH : H a = none := by
        cases h : H a with
        | none => rfl
        | some b => exact absurd (hHQ a (by simp [h])) hQ
      rw [List.filter_cons_of_neg (by simpa using hQ), List.filterMap_cons, hH]
      simpa using ih

theorem read_current_eq_find (st : Store) (lt : Lifetime) (storage key : String) :
    read_current st lt storage key
      = (st.find? (fun r => readPred lt storage key r)).bind
          (fun r => decodeBlob r.value) := by
  simp only [read_current]
  cases st.find? (fun r => readPred lt storage key r) <;> rfl

theorem readPred_imp_key {lt : Lifetime} {storage key : String} {r : Row}
    (h : readPred lt storage key r = true) :
    (r.id == key && r.ping == storage) = true := by
  simp only [readPred, Bool.and_eq_true, beq_iff_eq] at h
  simp [h.1.2, h.2]

theorem read_current_of_rowsFor_nil {st : Store} {lt : Lifetime}
    {storage key : String} (h : rowsFor st key storage = []) :
    read_current st lt storage key = none := by
  rw [read_current_eq_find,
    find?_filter_of_imp (fun a => readPred_imp_key) st]
  rw [show st.filter _ = rowsFor st key storage from rfl, h]
  rfl

theorem read_current_of_rowsFor_single {st : Store} {lt : Lifetime}
    {storage key : String} {row : Row}
    (h : rowsFor st key storage = [row]) (hlt : row.lifetime = lt) :
    read_current st lt storage key = decodeBlob row.value := by
  rw [read_current_eq_find,
    find?_filter_of_imp (fun a => readPred_imp_key) st]
  rw [show st.filter _ = rowsFor st key storage from rfl, h]
  have hrow : row ∈ rowsFor st key storage := by
    rw [h]; exact List.mem_singleton.mpr rfl
  have hpred := List.of_mem_filter hrow
  simp only [Bool.and_eq_true, beq_iff_eq] at hpred
  have hP : readPred lt storage key row = true := by
    simp [readPred, hlt, hpred.1, hpred.2]
  rw [List.find?_cons_of_pos _ hP]
  rfl

theorem find?_upsertRow_of_none {st : Store} {r : Row} {P : Row → Bool}
    (hP : ∀ x, P x = true → sameKey x r = false) :
    (upsertRow st r).find? P = st.find? P := by
  have hself : sameKey r r = true := by simp [sameKey]
  have hPr : ¬ P r = true := fun h => by
    rw [hP r h] at hself
    exact Bool.false_ne_true hself
  induction st with
  | nil => simp [upsertRow, List.find?_cons_of_neg _ hPr]
  | cons q rest ih =>
    by_cases hk : sameKey q r = true
    · have hq : ¬ P q = true := fun hpq => by
        have hqf := hP q hpq
        rw [hqf] at hk
        exact Bool.false_ne_true hk
      simp only [upsertRow, hk, if_true]
      rw [List.find?_cons_of_neg _ hPr, List.find?_cons_of_neg _ hq]
    · have hk' : sameKey q r = false := by simpa using hk
      simp only [upsertRow, hk', Bool.false_eq_true, if_false]
      by_cases hq : P q = true
      · rw [List.find?_cons_of_pos _ hq, List.find?_cons_of_pos _ hq]
      · rw [List.find?_cons_of_neg _ (by simpa using hq),
          List.find?_cons_of_neg _ (by simpa using hq), ih]

theorem read_current_upsertRow_other {st : Store} {r : Row} {lt : Lifetime}
    {storage key : String} (hne : ¬(key = r.id ∧ storage = r.ping)) :
    read_current (upsertRow st r) lt storage key = read_current st lt storage key := by
  rw [read_current_eq_find, read_current_eq_find, find?_upsertRow_of_none]
  intro x hx
  simp only [readPred, Bool.and_eq_true, beq_iff_eq] at hx
  refine Bool.eq_false_iff.mpr fun hcon => ?_
  rcases sameKey_iff.mp hcon with ⟨h1, h2⟩
  exact hne ⟨hx.2.symm.trans h1, hx.1.2.symm.trans h2⟩

/-! ### LIKE patterns built from a wildcard-free string -/

theorem likeMatch_percent_all (s : List Char) : likeMatch ['%'] s = true := by
  induction s with
  | nil => simp [likeMatch]
  | cons c s ih => simp [likeMatch, ih]

theorem likeMatch_cons_nil {p : Char} (h1 : p ≠ '%') (ps : List Char) :
    likeMatch (p :: ps) [] = false := by
  by_cases h2 : p = '_'
  · subst h2; simp [likeMatch]
  · simp [likeMatch, h1, h2]

theorem likeMatch_cons_cons {p : Char} (h1 : p ≠ '%') (h2 : p ≠ '_')
    (ps : List Char) (c : Char) (s : List Char) :
    likeMatch (p :: ps) (c :: s) = (charLikeEq p c && likeMatch ps s) := by
  simp [likeMatch, h1, h2]

/-- On a pattern free of the two LIKE wildcards and followed by a final
percent, LIKE matching is exactly ASCII-case-insensitive string-prefix
matching. -/
theorem likeMatch_wildcard_free {ps : List Char}
    (hps : ∀ c ∈ ps, c ≠ '%' ∧ c ≠ '_') :
    ∀ s : List Char,
      likeMatch (ps ++ ['%']) s
        = (ps.map asciiLower).isPrefixOf (s.map asciiLower) := by
  induction ps with
  | nil =>
    intro s
    simp [likeMatch_percent_all s, List.isPrefixOf]
  | cons p ps ih =>
    intro s
    have hp := hps p (List.mem_cons_self _ _)
    have hrest : ∀ c ∈ ps, c ≠ '%' ∧ c ≠ '_' :=
      fun c hc => hps c (List.mem_cons_of_mem _ hc)
    cases s with
    | nil =>
      rw [List.cons_append, likeMatch_cons_nil hp.1]
      simp [List.isPrefixOf]
    | cons c s' =>
      rw [List.cons_append, likeMatch_cons_cons hp.1 hp.2, ih hrest s']
      simp [List.isPrefixOf, charLikeEq]

/-! ### Iteration decompositions -/

theorem iter_store_from_append (st1 st2 : Store) (lt : Lifetime)
    (p : String) (k : Option String) :
    iter_store_from (st1 ++ st2) lt p k
      = iter_store_from st1 lt p k ++ iter_store_from st2 lt p k := by
  simp [iter_store_from, List.filterMap_append]

theorem iter_filter_id (st : Store) (lt : Lifetime) (p i : String) :
    (iter_store_from st lt p none).filter (fun e => e.1 == i)
      = (rowsFor st i p).filterMap (fun r =>
          if r.lifetime.as_str == lt.as_str then
            (decodeBlob r.value).map (fun m => (r.id, m))
          else none) := by
  rw [iter_store_from, List.filter_filterMap]
  rw [filterMap_filter_of_imp (Q := fun r => r.id == i && r.ping == p) ?_ st]
  · refine List.filterMap_congr ?_
    intro r hr
    have hpred := List.of_mem_filter hr
    simp only [Bool.and_eq_true] at hpred
    by_cases hlt : (r.lifetime.as_str == lt.as_str) = true <;>
      cases hdec : decodeBlob r.value <;>
        simp [rowSelected, Option.filter, hlt, hpred.1, hpred.2, hdec]
  · intro r hsome
    rcases Option.isSome_iff_exists.mp hsome with ⟨e, he⟩
    rcases Option.filter_eq_some.mp he with ⟨hFe, hq⟩
    by_cases hsel : rowSelected lt p none r = true
    · rw [if_pos hsel] at hFe
      rcases Option.map_eq_some'.mp hFe with ⟨m, _, hem⟩
      have hid : (r.id == i) = true := by
        rw [← hem] at hq
        simpa using hq
      have hping : (r.ping == p) = true := by
        simp only [rowSelected, Bool.and_eq_true] at hsel
        exact hsel.1.2
      simp [hid, hping]
    · rw [if_neg hsel] at hFe
      exact absurd hFe (by simp)

/-! ### The per-ping fan-out of record and record_with -/

theorem WF_record_step {env : DbEnv} {lt : Lifetime} {q i : String}
    {v : Metric} {st : Store} (h : WF st) :
    WF ((record_per_lifetime env lt q i v st).2) := by
  by_cases hf : env.writeFails lt q i = true
  · simpa [record_per_lifetime, hf] using h
  · simp only [record_per_lifetime, hf, Bool.false_eq_true, if_false]
    exact WF_upsertRow h

theorem WF_record_with_step {env : DbEnv} {lt : Lifetime} {q i : String}
    {f : Option Metric → Metric} {st : Store} (h : WF st) :
    WF ((record_per_lifetime_with env lt q i f st).2) := by
  by_cases hf : env.writeFails lt q i = true
  · simpa [record_per_lifetime_with, hf] using h
  · simp only [record_per_lifetime_with, hf, Bool.false_eq_true, if_false]
    exact WF_upsertRow h

theorem record_fold_preserve (env : DbEnv) (lt : Lifetime) (i : String)
    (v : Metric) :
    ∀ (l : List String) (st : Store) (p : String), p ∉ l →
      rowsFor (l.foldl
          (fun s q => (record_per_lifetime env lt q i v s).2) st) i p
        = rowsFor st i p := by
  intro l
  induction l with
  | nil => intro st p _; rfl
  | cons q l ih =>
    intro st p hp
    have hpq : p ≠ q := fun h => hp (h ▸ List.mem_cons_self _ _)
    have hpl : p ∉ l := fun h => hp (List.mem_cons_of_mem _ h)
    rw [List.foldl_cons, ih _ p hpl]
    by_cases hf : env.writeFails lt q i = true
    · simp [record_per_lifetime, hf]
    · simp only [record_per_lifetime, hf, Bool.false_eq_true, if_false]
      exact rowsFor_upsertRow_other (fun hc => hpq hc.2)

theorem record_fold_rowsFor (env : DbEnv) (lt : Lifetime) (i : String)
    (v : Metric) :
    ∀ (l : List String) (st : Store), WF st → ∀ p ∈ l,
      env.writeFails lt p i = false →
      rowsFor (l.foldl
          (fun s q => (record_per_lifetime env lt q i v s).2) st) i p
        = [⟨i, p, lt, .enc v⟩] := by
  intro l
  induction l with
  | nil => intro st _ p hp; exact absurd hp (List.not_mem_nil p)
  | cons q l ih =>
    intro st hWF p hp hok
    rw [List.foldl_cons]
    by_cases hpl : p ∈ l
    · exact ih _ (WF_record_step hWF) p hpl hok
    · have hpq : p = q := by
        rcases List.mem_cons.mp hp with h | h
        · exact h
        · exact absurd h hpl
      subst hpq
      rw [record_fold_preserve env lt i v l _ p hpl]
      simp only [record_per_lifetime, hok, Bool.false_eq_true, if_false]
      exact rowsFor_upsertRow_self hWF ⟨i, p, lt, .enc v⟩

theorem record_with_fold_preserve (env : DbEnv) (lt : Lifetime) (i : String)
    (f : Option Metric → Metric) :
    ∀ (l : List String) (st : Store) (p : String), p ∉ l →
      rowsFor (l.foldl
          (fun s q => (record_per_lifetime_with env lt q i f s).2) st) i p
        = rowsFor st i p := by
  intro l
  induction l with
  | nil => intro st p _; rfl
  | cons q l ih =>
    intro st p hp
    have hpq : p ≠ q := fun h => hp (h ▸ List.mem_cons_self _ _)
    have hpl : p ∉ l := fun h => hp (List.mem_cons_of_mem _ h)
    rw [List.foldl_cons, ih _ p hpl]
    by_cases hf : env.writeFails lt q i = true
    · simp [record_per_lifetime_with, hf]
    · simp only [record_per_lifetime_with, hf, Bool.false_eq_true, if_false]
      exact rowsFor_upsertRow_other (fun hc => hpq hc.2)

theorem record_with_fold_rowsFor (env : DbEnv) (lt : Lifetime) (i : String)
    (f : Option Metric → Metric) :
    ∀ (l : List String) (st : Store), WF st → l.Nodup → ∀ p ∈ l,
      env.writeFails lt p i = false →
      rowsFor (l.foldl
          (fun s q => (record_per_lifetime_with env lt q i f s).2) st) i p
        = [⟨i, p, lt, .enc (f (read_current st lt p i))⟩] := by
  intro l
  induction l with
  | nil => intro st _ _ p hp; exact absurd hp (List.not_mem_nil p)
  | cons q l ih =>
    intro st hWF hnd p hp hok
    rcases List.nodup_cons.mp hnd with ⟨hql, hndl⟩
    rw [List.foldl_cons]
    by_cases hpq : p = q
    · subst hpq
      have hpl : p ∉ l := hql
      rw [record_with_fold_preserve env lt i f l _ p hpl]
      simp only [record_per_lifetime_with, hok, Bool.false_eq_true, if_false]
      exact rowsFor_upsertRow_self hWF ⟨i, p, lt, .enc (f (read_current st lt p i))⟩
    · have hpl : p ∈ l := by
        rcases List.mem_cons.mp hp with h | h
        · exact absurd h hpq
        · exact h
      have hread : read_current ((record_per_lifetime_with env lt q i f st).2)
          lt p i = read_current st lt p i := by
        by_cases hf : env.writeFails lt q i = true
        · simp [record_per_lifetime_with, hf]
        · simp only [record_per_lifetime_with, hf, Bool.false_eq_true, if_false]
          exact read_current_upsertRow_other (fun hc => hpq hc.2)
      rw [ih _ (WF_record_with_step hWF) hndl p hpl hok, hread]

/-! ### Iterated atomic counter increments -/

theorem counter_iterate (env : DbEnv) (lt : Lifetime) (p i : String)
    (hok : env.writeFails lt p i = false) :
    ∀ (n : Nat) (st : Store), WF st → rowsFor st i p = [] →
      WF ((fun s => (record_per_lifetime_with env lt p i counterTransform s).2)^[n] st)
      ∧ rowsFor ((fun s =>
            (record_per_lifetime_with env lt p i counterTransform s).2)^[n] st) i p
          = if n = 0 then [] else [⟨i, p, lt, .enc (.counter n)⟩] := by
  intro n
  induction n with
  | zero => intro st hWF hrows; simpa using ⟨hWF, hrows⟩
  | succ m ihm =>
    intro st hWF hrows
    rcases ihm st hWF hrows with ⟨hWFm, hrowsm⟩
    rw [Function.iterate_succ_apply']
    generalize hgen : (fun s =>
        (record_per_lifetime_with env lt p i counterTransform s).2)^[m] st = stm
      at hWFm hrowsm ⊢
    have hread : read_current stm lt p i
        = if m = 0 then none else some (.counter m) := by
      by_cases hm : m = 0
      · subst hm
        simp only [if_pos rfl] at hrowsm
        rw [read_current_of_rowsFor_nil hrowsm]
        simp
      · rw [if_neg hm] at hrowsm
        rw [read_current_of_rowsFor_single hrowsm rfl]
        simp [decodeBlob, hm]
    constructor
    · exact WF_record_with_step hWFm
    · simp only [record_per_lifetime_with, hok, Bool.false_eq_true, if_false]
      rw [hread]
      by_cases hm : m = 0
      · subst hm
        simpa [counterTransform] using
          rowsFor_upsertRow_self hWFm ⟨i, p, lt, .enc (.counter 1)⟩
      · have hct : counterTransform (some (.counter m)) = .counter (m + 1) := by
          simp [counterTransform]
        simp only [if_neg hm, hct]
        have hres := rowsFor_upsertRow_self hWFm ⟨i, p, lt, .enc (.counter (m + 1))⟩
        simpa [Nat.succ_ne_zero, Nat.cast_add] using hres

/-! ### Claims -/

/-- C8: persist_ping_lifetime_data always returns Ok and leaves the
stored state completely unchanged, for every store state: it performs no
write, read or deletion (and the opened store carries no delayed-I/O
state at all, whichever flag value Database.new was given). -/
theorem C8_persist_noop (st : Store) :
    persist_ping_lifetime_data st = (Except.ok (), st) :=
  rfl

/-- C5: whenever is_upload_enabled is false, record and record_with
return without modifying the stored state in any way, for every store
state, every value and every transform, so the state observed by
iteration afterwards is the state before the call. -/
theorem C5_upload_disabled_gating (env : DbEnv) (glean : GleanState)
    (data : CommonMetricDataInternal) (v : Metric)
    (f : Option Metric → Metric) (st : Store)
    (hup : glean.is_upload_enabled = false) :
    record env glean data v st = st ∧ record_with env glean data f st = st := by
  constructor
  · simp [record, hup]
  · simp [record_with, hup]

/-- Witness for C5 at a concrete disabled state and non-empty store. -/
theorem C5_witness :
    (GleanState.mk false).is_upload_enabled = false
    ∧ record DbEnv.ok ⟨false⟩ ⟨.ping, ["p"], "c", "n", none⟩ (.counter 1)
        [⟨"x", "p", .ping, .enc (.counter 5)⟩]
      = [⟨"x", "p", .ping, .enc (.counter 5)⟩] :=
  ⟨rfl,
    (C5_upload_disabled_gating DbEnv.ok ⟨false⟩ ⟨.ping, ["p"], "c", "n", none⟩
      (.counter 1) counterTransform
      [⟨"x", "p", .ping, .enc (.counter 5)⟩] rfl).1⟩

/-- C10: remove_single_metric and clear_ping_lifetime_storage return Ok
even when no stored row matches the given lifetime, ping name and metric
id (or ping name), and the stored state is unchanged: deleting zero rows
is not an error. -/
theorem C10_delete_absent (env : DbEnv) (lt : Lifetime) (p i p2 : String)
    (st st2 : Store)
    (h1 : env.removeFails lt p i = false)
    (h2 : env.clearPingFails p2 = false)
    (hn1 : ∀ r ∈ st, ¬(r.lifetime = lt ∧ r.ping = p ∧ r.id = i))
    (hn2 : ∀ r ∈ st2, ¬(r.lifetime = Lifetime.ping ∧ r.ping = p2)) :
    remove_single_metric env lt p i st = (Except.ok (), st)
    ∧ clear_ping_lifetime_storage env p2 st2 = (Except.ok (), st2) := by
  constructor
  · simp only [remove_single_metric, h1, Bool.false_eq_true, if_false]
    have hfix : st.filter (fun r =>
        !(r.lifetime.as_str == lt.as_str && r.ping == p && r.id == i)) = st := by
      refine List.filter_eq_self.mpr ?_
      intro r hr
      simp only [Bool.not_eq_eq_eq_not, Bool.not_true]
      refine Bool.eq_false_iff.mpr fun hcon => hn1 r hr ?_
      simp only [Bool.and_eq_true, beq_iff_eq] at hcon
      exact ⟨Lifetime.as_str_inj.mp hcon.1.1, hcon.1.2, hcon.2⟩
    rw [hfix]
  · simp only [clear_ping_lifetime_storage, h2, Bool.false_eq_true, if_false]
    have hfix : st2.filter (fun r =>
        !(r.lifetime.as_str == Lifetime.ping.as_str && r.ping == p2)) = st2 := by
      refine List.filter_eq_self.mpr ?_
      intro r hr
      simp only [Bool.not_eq_eq_eq_not, Bool.not_true]
      refine Bool.eq_false_iff.mpr fun hcon => hn2 r hr ?_
      simp only [Bool.and_eq_true, beq_iff_eq] at hcon
      exact ⟨Lifetime.as_str_inj.mp hcon.1, hcon.2⟩
    rw [hfix]

/-- Witness for C10 on a store whose only row matches neither deletion. -/
theorem C10_witness :
    (∀ r ∈ [Row.mk "x" "other" Lifetime.user (.enc (.counter 5))],
      ¬(r.lifetime = Lifetime.ping ∧ r.ping = "p" ∧ r.id = "m"))
    ∧ remove_single_metric DbEnv.ok Lifetime.ping "p" "m"
        [⟨"x", "other", .user, .enc (.counter 5)⟩]
      = (Except.ok (), [⟨"x", "other", .user, .enc (.counter 5)⟩])
    ∧ clear_ping_lifetime_storage DbEnv.ok "p"
        [⟨"x", "other", .user, .enc (.counter 5)⟩]
      = (Except.ok (), [⟨"x", "other", .user, .enc (.counter 5)⟩]) := by
  have h := C10_delete_absent DbEnv.ok Lifetime.ping "p" "m" "p"
    [⟨"x", "other", .user, .enc (.counter 5)⟩]
    [⟨"x", "other", .user, .enc (.counter 5)⟩]
    rfl rfl (by decide) (by decide)
  exact ⟨by decide, h.1, h.2⟩

/-- C3 (code divergence): opened with the delayed-I/O flag set to true,
the store behaves identically to one opened with it false; recording a
Ping-lifetime metric writes directly to the persistent table (there is
no in-memory cache), and persist_ping_lifetime_data does nothing. -/
theorem C3_delayed_io_ignored :
    (Database.new ⟨none, []⟩ true).2 = []
    ∧ (record_per_lifetime DbEnv.ok .ping "s" "m" (.str "v")
        (Database.new ⟨none, []⟩ true).2).2
      = [⟨"m", "s", .ping, .enc (.str "v")⟩]
    ∧ persist_ping_lifetime_data
        (record_per_lifetime DbEnv.ok .ping "s" "m" (.str "v")
          (Database.new ⟨none, []⟩ true).2).2
      = (Except.ok (), [⟨"m", "s", .ping, .enc (.str "v")⟩])
    ∧ Database.new ⟨none, []⟩ true = Database.new ⟨none, []⟩ false := by
  refine ⟨rfl, by decide, by rfl, rfl⟩

/-- C4 (code divergence): opening a directory that holds a legacy-format
data file while the current-format store is empty imports nothing (the
opened store is empty) and leaves the legacy file in place: Database.new
performs no migration and no deletion. -/
theorem C4_no_migration :
    (Database.new ⟨some [("p#m", .enc (.counter 734))], []⟩ false).2 = []
    ∧ (Database.new ⟨some [("p#m", .enc (.counter 734))], []⟩ false).1.legacy
      = some [("p#m", .enc (.counter 734))] :=
  ⟨rfl, rfl⟩

/-- Counterexample to C1 as stated: recording under the three lifetimes
for the same metric id and ping name leaves a single row (the schema is
UNIQUE(id, ping), so each record upserts the same row, rewriting its
lifetime), not three independent rows; after clearing the Ping lifetime,
iteration over the Application lifetime returns nothing. -/
theorem C1_cex :
    ((record_per_lifetime DbEnv.ok .user "s" "m" (.str "c")
        (record_per_lifetime DbEnv.ok .application "s" "m" (.str "b")
          (record_per_lifetime DbEnv.ok .ping "s" "m" (.str "a") []).2).2).2
      = [⟨"m", "s", .user, .enc (.str "c")⟩])
    ∧ ((record_per_lifetime DbEnv.ok .user "s" "m" (.str "c")
        (record_per_lifetime DbEnv.ok .application "s" "m" (.str "b")
          (record_per_lifetime DbEnv.ok .ping "s" "m" (.str "a") []).2).2).2).length
      = 1
    ∧ iter_store_from
        ((clear_ping_lifetime_storage DbEnv.ok "s"
          (record_per_lifetime DbEnv.ok .user "s" "m" (.str "c")
            (record_per_lifetime DbEnv.ok .application "s" "m" (.str "b")
              (record_per_lifetime DbEnv.ok .ping "s" "m" (.str "a") []).2).2).2).2)
        .application "s" none
      = [] := by
  refine ⟨by decide, by decide, by decide⟩

/-- C1 (amended): recording under the Ping, Application and User
lifetimes with three distinct metric ids under one ping name produces
three independent rows, one per lifetime; clearing the Ping lifetime for
that ping name removes only the Ping-lifetime row, and iteration over
the User and Application lifetimes still returns their two values
unchanged. -/
theorem C1_lifetime_isolation (env : DbEnv) (st0 : Store)
    (p i1 i2 i3 : String) (m1 m2 m3 : Metric) (st3 stc : Store)
    (hi12 : i1 ≠ i2) (hi13 : i1 ≠ i3) (hi23 : i2 ≠ i3)
    (hst0 : ∀ r ∈ st0, r.ping ≠ p)
    (h1 : env.writeFails .user p i1 = false)
    (h2 : env.writeFails .ping p i2 = false)
    (h3 : env.writeFails .application p i3 = false)
    (hc : env.clearPingFails p = false)
    (hst3 : st3 = (record_per_lifetime env .application p i3 m3
        (record_per_lifetime env .ping p i2 m2
          (record_per_lifetime env .user p i1 m1 st0).2).2).2)
    (hstc : stc = (clear_ping_lifetime_storage env p st3).2) :
    rowsFor st3 i1 p = [⟨i1, p, .user, .enc m1⟩]
    ∧ rowsFor st3 i2 p = [⟨i2, p, .ping, .enc m2⟩]
    ∧ rowsFor st3 i3 p = [⟨i3, p, .application, .enc m3⟩]
    ∧ iter_store_from stc .user p none = [(i1, m1)]
    ∧ iter_store_from stc .application p none = [(i3, m3)]
    ∧ iter_store_from stc .ping p none = [] := by
  have hping0 : ∀ q ∈ st0, (q.ping == p) = false := by
    intro q hq
    exact beq_eq_false_iff_ne.mpr (hst0 q hq)
  have hshape : st3 = st0 ++ [⟨i1, p, .user, .enc m1⟩,
      ⟨i2, p, .ping, .enc m2⟩, ⟨i3, p, .application, .enc m3⟩] := by
    have e1 : (record_per_lifetime env .user p i1 m1 st0).2
        = st0 ++ [⟨i1, p, .user, .enc m1⟩] := by
      simp only [record_per_lifetime, h1, Bool.false_eq_true, if_false]
      refine upsertRow_append ?_
      intro q hq
      simp [sameKey, hping0 q hq]
    have e2 : (record_per_lifetime env .ping p i2 m2
          (st0 ++ [⟨i1, p, .user, .enc m1⟩])).2
        = st0 ++ [⟨i1, p, .user, .enc m1⟩] ++ [⟨i2, p, .ping, .enc m2⟩] := by
      simp only [record_per_lifetime, h2, Bool.false_eq_true, if_false]
      refine upsertRow_append ?_
      intro q hq
      rcases List.mem_append.mp hq with hq | hq
      · simp [sameKey, hping0 q hq]
      · simp only [List.mem_singleton] at hq
        subst hq
        simp [sameKey, beq_eq_false_iff_ne.mpr hi12]
    have e3 : (record_per_lifetime env .application p i3 m3
          (st0 ++ [⟨i1, p, .user, .enc m1⟩] ++ [⟨i2, p, .ping, .enc m2⟩])).2
        = st0 ++ [⟨i1, p, .user, .enc m1⟩] ++ [⟨i2, p, .ping, .enc m2⟩]
            ++ [⟨i3, p, .application, .enc m3⟩] := by
      simp only [record_per_lifetime, h3, Bool.false_eq_true, if_false]
      refine upsertRow_append ?_
      intro q hq
      rcases List.mem_append.mp hq with hq | hq
      · rcases List.mem_append.mp hq with hq | hq
        · simp [sameKey, hping0 q hq]
        · simp only [List.mem_singleton] at hq
          subst hq
          simp [sameKey, beq_eq_false_iff_ne.mpr hi13]
      · simp only [List.mem_singleton] at hq
        subst hq
        simp [sameKey, beq_eq_false_iff_ne.mpr hi23]
    rw [hst3, e1, e2, e3]
    simp
  have hstc' : stc = st0 ++ [⟨i1, p, .user, .enc m1⟩,
      ⟨i3, p, .application, .enc m3⟩] := by
    rw [hstc, hshape]
    simp only [clear_ping_lifetime_storage, hc, Bool.false_eq_true, if_false,
      List.filter_append]
    have hkeep : st0.filter (fun r =>
        !(r.lifetime.as_str == Lifetime.ping.as_str && r.ping == p)) = st0 := by
      refine List.filter_eq_self.mpr ?_
      intro q hq
      simp [hping0 q hq]
    rw [hkeep]
    simp [List.filter_cons, Lifetime.as_str]
  have hiter0 : ∀ lt : Lifetime, ∀ k : Option String,
      iter_store_from st0 lt p k = [] := by
    intro lt k
    refine List.filterMap_eq_nil_iff.mpr ?_
    intro q hq
    simp [rowSelected, hping0 q hq]
  have hrows0 : ∀ j : String, rowsFor st0 j p = [] := by
    intro j
    refine List.filter_eq_nil_iff.mpr ?_
    intro q hq
    simp [hping0 q hq]
  refine ⟨?_, ?_, ?_, ?_, ?_, ?_⟩
  · rw [hshape]
    simp only [rowsFor, List.filter_append]
    rw [show List.filter _ st0 = rowsFor st0 i1 p from rfl, hrows0 i1]
    simp [List.filter_cons, beq_eq_false_iff_ne.mpr hi12.symm,
      beq_eq_false_iff_ne.mpr hi13.symm]
  · rw [hshape]
    simp only [rowsFor, List.filter_append]
    rw [show List.filter _ st0 = rowsFor st0 i2 p from rfl, hrows0 i2]
    simp [List.filter_cons, beq_eq_false_iff_ne.mpr hi12,
      beq_eq_false_iff_ne.mpr hi23.symm]
  · rw [hshape]
    simp only [rowsFor, List.filter_append]
    rw [show List.filter _ st0 = rowsFor st0 i3 p from rfl, hrows0 i3]
    simp [List.filter_cons, beq_eq_false_iff_ne.mpr hi13,
      beq_eq_false_iff_ne.mpr hi23]
  · rw [hstc', iter_store_from_append, hiter0]
    simp [iter_store_from, rowSelected, Lifetime.as_str, decodeBlob]
  · rw [hstc', iter_store_from_append, hiter0]
    simp [iter_store_from, rowSelected, Lifetime.as_str, decodeBlob]
  · rw [hstc', iter_store_from_append, hiter0]
    simp [iter_store_from, rowSelected, Lifetime.as_str, decodeBlob]

/-- Witness for C1 (amended) at three concrete distinct metric ids. -/
theorem C1_lifetime_isolation_witness :
    ("a" : String) ≠ "b"
    ∧ rowsFor ((record_per_lifetime DbEnv.ok .application "s" "c" (.str "3")
        (record_per_lifetime DbEnv.ok .ping "s" "b" (.str "2")
          (record_per_lifetime DbEnv.ok .user "s" "a" (.str "1") []).2).2).2)
        "a" "s"
      = [⟨"a", "s", .user, .enc (.str "1")⟩]
    ∧ iter_store_from ((clear_ping_lifetime_storage DbEnv.ok "s"
        ((record_per_lifetime DbEnv.ok .application "s" "c" (.str "3")
          (record_per_lifetime DbEnv.ok .ping "s" "b" (.str "2")
            (record_per_lifetime DbEnv.ok .user "s" "a" (.str "1") []).2).2).2)).2)
        .ping "s" none
      = [] := by
  have h := C1_lifetime_isolation DbEnv.ok [] "s" "a" "b" "c"
    (.str "1") (.str "2") (.str "3") _ _
    (by decide) (by decide) (by decide) (by simp)
    rfl rfl rfl rfl rfl rfl
  exact ⟨by decide, h.1, h.2.2.2.2.2⟩

/-- C6: recording the same (lifetime, ping name, metric id, value) tuple
twice in succession leaves exactly one stored row for that key, and
iterating that lifetime and ping name yields that metric id exactly once
with the recorded value: the second record upserts instead of inserting
a duplicate. -/
theorem C6_upsert_idempotent (env : DbEnv) (lt : Lifetime) (p i : String)
    (m : Metric) (st st2 : Store)
    (hWF : WF st) (hok : env.writeFails lt p i = false)
    (hst2 : st2 = (record_per_lifetime env lt p i m
        (record_per_lifetime env lt p i m st).2).2) :
    rowsFor st2 i p = [⟨i, p, lt, .enc m⟩]
    ∧ (iter_store_from st2 lt p none).filter (fun e => e.1 == i)
        = [(i, m)] := by
  have hstep : (record_per_lifetime env lt p i m st).2
      = upsertRow st ⟨i, p, lt, .enc m⟩ := by
    simp [record_per_lifetime, hok]
  have hWF1 : WF (upsertRow st ⟨i, p, lt, .enc m⟩) := WF_upsertRow hWF
  have hrows : rowsFor st2 i p = [⟨i, p, lt, .enc m⟩] := by
    rw [hst2, hstep]
    simp only [record_per_lifetime, hok, Bool.false_eq_true, if_false]
    exact rowsFor_upsertRow_self hWF1 ⟨i, p, lt, .enc m⟩
  refine ⟨hrows, ?_⟩
  rw [iter_filter_id, hrows]
  simp [decodeBlob]

/-- Witness for C6: double-record of one concrete counter. -/
theorem C6_witness :
    DbEnv.ok.writeFails .ping "p" "c.n" = false
    ∧ rowsFor ((record_per_lifetime DbEnv.ok .ping "p" "c.n" (.counter 2)
        (record_per_lifetime DbEnv.ok .ping "p" "c.n" (.counter 2)
          [⟨"other", "p", .user, .enc (.boolean true)⟩]).2).2) "c.n" "p"
      = [⟨"c.n", "p", .ping, .enc (.counter 2)⟩] := by
  have h := C6_upsert_idempotent DbEnv.ok .ping "p" "c.n" (.counter 2)
    [⟨"other", "p", .user, .enc (.boolean true)⟩] _
    (by simp [WF]) rfl rfl
  exact ⟨rfl, h.1⟩

/-- C2: applying record_with N times sequentially on one (lifetime, ping
name, metric id) with the transform taking an absent value to a counter
of one and a counter of k to a counter of k plus one leaves the store
holding a counter of N for that key; moreover each invocation of
record_per_lifetime_with is a single atomic step: it reads the current
value (absent if no row, an undecodable BLOB treated as absent), applies
the transform to it, and writes the result. -/
theorem C2_atomic_transform (env : DbEnv) (glean : GleanState)
    (data : CommonMetricDataInternal) (p : String) (st : Store) (N : Nat)
    (hup : glean.is_upload_enabled = true)
    (hpings : data.send_in_pings = [p])
    (hok : env.writeFails data.lifetime p (data.identifier glean) = false)
    (hWF : WF st)
    (hrows : rowsFor st (data.identifier glean) p = [])
    (hN : 1 ≤ N) :
    rowsFor ((fun s => record_with env glean data counterTransform s)^[N] st)
        (data.identifier glean) p
      = [⟨data.identifier glean, p, data.lifetime, .enc (.counter N)⟩]
    ∧ ∀ (f : Option Metric → Metric) (s : Store),
        record_per_lifetime_with env data.lifetime p (data.identifier glean) f s
          = (Except.ok (), upsertRow s
              ⟨data.identifier glean, p, data.lifetime,
               .enc (f (read_current s data.lifetime p (data.identifier glean)))⟩) := by
  constructor
  · have hfn : (fun s => record_with env glean data counterTransform s)
        = (fun s => (record_per_lifetime_with env data.lifetime p
            (data.identifier glean) counterTransform s).2) := by
      funext s
      simp [record_with, hup, CommonMetricDataInternal.storage_names, hpings]
    rw [hfn]
    have h := (counter_iterate env data.lifetime p (data.identifier glean)
      hok N st hWF hrows).2
    rw [h, if_neg (by omega)]
  · intro f s
    simp [record_per_lifetime_with, hok]

/-- Witness for C2: three increments of one counter from the empty store. -/
theorem C2_witness :
    1 ≤ 3
    ∧ rowsFor ((fun s => record_with DbEnv.ok ⟨true⟩
          ⟨.ping, ["p"], "c", "n", none⟩ counterTransform s)^[3] [])
        ((CommonMetricDataInternal.mk .ping ["p"] "c" "n" none).identifier ⟨true⟩)
        "p"
      = [⟨(CommonMetricDataInternal.mk .ping ["p"] "c" "n" none).identifier ⟨true⟩,
          "p", .ping, .enc (.counter 3)⟩] := by
  have h := C2_atomic_transform DbEnv.ok ⟨true⟩ ⟨.ping, ["p"], "c", "n", none⟩
    "p" [] 3 rfl rfl rfl (by simp [WF]) rfl (by omega)
  exact ⟨by omega, h.1⟩

/-- C9: record and record_with iterate over every ping name in the
metric's storage_names and perform one upsert per ping name; a failure
while recording under one ping name does not prevent the recording from
completing under each of the remaining ping names (the statement is over
an arbitrary failure environment, constrained only at the ping name
observed). -/
theorem C9_fanout (env : DbEnv) (glean : GleanState)
    (data : CommonMetricDataInternal) (v : Metric)
    (f : Option Metric → Metric) (st : Store) (p : String)
    (hup : glean.is_upload_enabled = true)
    (hWF : WF st)
    (hnd : data.storage_names.Nodup)
    (hp : p ∈ data.storage_names)
    (hok : env.writeFails data.lifetime p (data.identifier glean) = false) :
    rowsFor (record env glean data v st) (data.identifier glean) p
      = [⟨data.identifier glean, p, data.lifetime, .enc v⟩]
    ∧ rowsFor (record_with env glean data f st) (data.identifier glean) p
      = [⟨data.identifier glean, p, data.lifetime,
          .enc (f (read_current st data.lifetime p (data.identifier glean)))⟩] := by
  constructor
  · rw [record, if_neg (by simp [hup])]
    exact record_fold_rowsFor env data.lifetime (data.identifier glean) v
      data.storage_names st hWF p hp hok
  · rw [record_with, if_neg (by simp [hup])]
    exact record_with_fold_rowsFor env data.lifetime (data.identifier glean) f
      data.storage_names st hWF hnd p hp hok

/-- Witness for C9: an environment that fails exactly on the first ping
name; the write under the second ping name still lands. -/
theorem C9_witness :
    ("p2" : String) ∈ ["p1", "p2"]
    ∧ (DbEnv.mk (fun _ q _ => q == "p1") (fun _ _ _ => false)
        (fun _ => false)).writeFails .ping "p2"
        ((CommonMetricDataInternal.mk .ping ["p1", "p2"] "c" "n" none).identifier
          ⟨true⟩) = false
    ∧ rowsFor (record
        (DbEnv.mk (fun _ q _ => q == "p1") (fun _ _ _ => false) (fun _ => false))
        ⟨true⟩ ⟨.ping, ["p1", "p2"], "c", "n", none⟩ (.counter 7) [])
        ((CommonMetricDataInternal.mk .ping ["p1", "p2"] "c" "n" none).identifier
          ⟨true⟩) "p2"
      = [⟨(CommonMetricDataInternal.mk .ping ["p1", "p2"] "c" "n" none).identifier
          ⟨true⟩, "p2", .ping, .enc (.counter 7)⟩] := by
  have h := C9_fanout
    (DbEnv.mk (fun _ q _ => q == "p1") (fun _ _ _ => false) (fun _ => false))
    ⟨true⟩ ⟨.ping, ["p1", "p2"], "c", "n", none⟩ (.counter 7) counterTransform
    [] "p2" rfl (by simp [WF]) (by decide) (by decide) (by decide)
  exact ⟨by decide, by decide, h.1⟩

/-- Counterexample to C7 as stated: the iteration key is compiled into a
SQL LIKE pattern, whose underscore wildcard matches any character, so an
entry whose metric id does not literally begin with the key is still
yielded. -/
theorem C7_cex :
    iter_store_from [⟨"aXb", "s", .ping, .enc (.str "v")⟩] .ping "s"
        (some "a_b")
      = [("aXb", Metric.str "v")]
    ∧ List.isPrefixOf "a_b".data "aXb".data = false := by
  constructor
  · have hlm : likeMatch ['a', '_', 'b', '%'] ("aXb" : String).data = true := by
      show likeMatch ['a', '_', 'b', '%'] ['a', 'X', 'b'] = true
      simp [likeMatch, charLikeEq, asciiLower]
    simp [iter_store_from, rowSelected, hlm, decodeBlob, Lifetime.as_str,
      List.filterMap_cons]
  · decide

/-- C7 (amended): iterating a lifetime and ping name with a key yields
exactly the entries whose metric id matches the key under SQL LIKE
semantics with a trailing percent; when the key contains no LIKE
wildcard, that is exactly ASCII-case-insensitive prefix matching (not
literal prefix matching) applied to the sequence yielded without a key. -/
theorem C7_iteration_like (st : Store) (lt : Lifetime) (p k : String)
    (hk : ∀ c ∈ k.data, c ≠ '%' ∧ c ≠ '_') :
    iter_store_from st lt p (some k)
      = (iter_store_from st lt p none).filter
          (fun e => (k.data.map asciiLower).isPrefixOf
            (e.1.data.map asciiLower)) := by
  rw [iter_store_from, iter_store_from, List.filter_filterMap]
  refine List.filterMap_congr ?_
  intro r _
  by_cases hsel : (r.lifetime.as_str == lt.as_str && r.ping == p) = true
  · cases hdec : decodeBlob r.value with
    | none => simp [rowSelected, Option.filter, hsel, hdec]
    | some m =>
      have hlm := likeMatch_wildcard_free hk r.id.data
      by_cases hpre : ((k.data.map asciiLower).isPrefixOf
          (r.id.data.map asciiLower)) = true
      · rw [hpre] at hlm
        simp [rowSelected, Option.filter, hsel, hdec, hlm, hpre]
      · rw [Bool.eq_false_iff.mpr hpre] at hlm
        simp [rowSelected, Option.filter, hsel, hdec, hlm,
          Bool.eq_false_iff.mpr hpre]
  · simp [rowSelected, Option.filter, Bool.eq_false_iff.mpr hsel]

/-- Witness for C7 (amended): the category example of the claim. -/
theorem C7_iteration_like_witness :
    (∀ c ∈ ("catA." : String).data, c ≠ '%' ∧ c ≠ '_')
    ∧ iter_store_from
        [⟨"catA.x", "s", .ping, .enc (.str "1")⟩,
         ⟨"catA.y", "s", .ping, .enc (.str "2")⟩,
         ⟨"catB.z", "s", .ping, .enc (.str "3")⟩] .ping "s" (some "catA.")
      = [("catA.x", Metric.str "1"), ("catA.y", Metric.str "2")] := by
  refine ⟨by decide, ?_⟩
  have h := C7_iteration_like
    [⟨"catA.x", "s", .ping, .enc (.str "1")⟩,
     ⟨"catA.y", "s", .ping, .enc (.str "2")⟩,
     ⟨"catB.z", "s", .ping, .enc (.str "3")⟩] .ping "s" "catA." (by decide)
  rw [h]
  decide

end Glean
